import Mathlib

/-
Verification of the Composite-pattern file-system sample
(src/compositePattern_fileSystem.ts).

The TypeScript sample defines an interface IFileSystemComponent with two
implementers: File (leaf, holds a name) and Folder (composite, holds a name
and a mutable ordered array of children).  `display` prints one line per node
and recurses with two extra spaces of indentation; `add` pushes onto the
children array; `remove` looks the argument up with Array.prototype.indexOf
(reference identity, ===) and splices it out when found.

Shallow embedding choices:
  - a Component is a tree value; the `id` field models JavaScript reference
    identity: every `new File(...)`/`new Folder(...)` in the client code is
    given a fresh id, and `===` between components is modelled as equality
    of ids (`cid`);
  - console output is modelled as the list of printed lines, in order;
  - the mutable children array of a Folder is the `children` list of the
    `folder` constructor; mutation is explicit state passing (a rebuilt
    value with the same id models the same object after mutation).
-/

namespace Composite

/-- Tree of file-system components: `file` is the leaf class File,
`folder` the composite class Folder with its ordered children array.
`id` models JavaScript reference identity of the object. -/
inductive Component : Type where
  | file (id : Nat) (name : String)
  | folder (id : Nat) (name : String) (children : List Component)

/-- Reference identity of a component: two components are `===` in the
JavaScript sense iff their ids coincide (each `new` yields a fresh id). -/
def cid : Component → Nat
  | .file i _ => i
  | .folder i _ _ => i

/-- Embedding of `getName()` of both classes. -/
def getName : Component → String
  | .file _ n => n
  | .folder _ n _ => n

/-- Children array of a component (empty for a File, which has none). -/
def childrenOf : Component → List Component
  | .file _ _ => []
  | .folder _ _ cs => cs

/-- Embedding of the Folder constructor: takes a name, children start `[]`.
The id models the fresh reference produced by `new`. -/
def Folder.new (id : Nat) (name : String) : Component :=
  .folder id name []

mutual

/-- Embedding of `display(indentation)`: the list of lines printed to the
console, in order.  A File prints `<indentation>- File: <name>`; a Folder
prints `<indentation>+ Folder: <name>` and then each child with
`indentation + "  "`. -/
def display : Component → String → List String
  | .file _ n, indentation => [indentation ++ "- File: " ++ n]
  | .folder _ n cs, indentation =>
      (indentation ++ "+ Folder: " ++ n) :: displayList cs (indentation ++ "  ")

/-- Lines printed by `children.forEach(child => child.display(indentation))`. -/
def displayList : List Component → String → List String
  | [], _ => []
  | c :: cs, indentation => display c indentation ++ displayList cs indentation

end

/-- Embedding of `display` with its optional parameter: `display()` is
`displayOpt c none`, `display(s)` is `displayOpt c (some s)`; the default
value of `indentation` is `""`. -/
def displayOpt (c : Component) (indentation : Option String) : List String :=
  display c (indentation.getD "")

/-- Embedding of `Folder.add`: `this.children.push(component)`. -/
def Folder.add (children : List Component) (component : Component) : List Component :=
  children ++ [component]

/-- Embedding of `Array.prototype.indexOf` on the children array starting
from position `n`, comparing by `===` (modelled as `cid` equality);
returns -1 when the component does not occur. -/
def indexOfFrom (x : Component) : List Component → Nat → Int
  | [], _ => -1
  | c :: cs, n => if cid c = cid x then (n : Int) else indexOfFrom x cs (n + 1)

/-- Embedding of `this.children.indexOf(component)`. -/
def indexOf (children : List Component) (x : Component) : Int :=
  indexOfFrom x children 0

/-- Embedding of `Folder.remove`: find the index with `indexOf`; when it is
not -1, `splice(index, 1)` (drop the element at that index), otherwise do
nothing. -/
def Folder.remove (children : List Component) (x : Component) : List Component :=
  let index := indexOf children x
  if index ≠ -1 then children.eraseIdx index.toNat else children

/-- Recursive characterisation of `Folder.remove`: drop the first child with
the same reference identity.  Proved equal to `Folder.remove` below. -/
def removeFirst (x : Component) : List Component → List Component
  | [] => []
  | c :: cs => if cid c = cid x then cs else c :: removeFirst x cs

mutual

/-- Number of nodes of a component tree. -/
def size : Component → Nat
  | .file _ _ => 1
  | .folder _ _ cs => 1 + sizeList cs

/-- Number of nodes of a list of component trees. -/
def sizeList : List Component → Nat
  | [] => 0
  | c :: cs => size c + sizeList cs

end

/-- Label of a node as it appears on its display line. -/
inductive NodeLabel : Type where
  | fileLabel (name : String)
  | folderLabel (name : String)

/-- The display line body of a node (everything after the indentation). -/
def lineOf : NodeLabel → String
  | .fileLabel n => "- File: " ++ n
  | .folderLabel n => "+ Folder: " ++ n

mutual

/-- Pre-order traversal of a tree, recording each node's depth (relative to
the root of the traversal) and label; parent before children, children in
sequence order. -/
def preorder : Component → Nat → List (Nat × NodeLabel)
  | .file _ n, d => [(d, .fileLabel n)]
  | .folder _ n cs, d => (d, .folderLabel n) :: preorderList cs (d + 1)

/-- Pre-order traversal of a list of trees, left to right. -/
def preorderList : List Component → Nat → List (Nat × NodeLabel)
  | [], _ => []
  | c :: cs, d => preorder c d ++ preorderList cs d

end

/-- Two spaces per depth level. -/
def indentOfDepth : Nat → String
  | 0 => ""
  | d + 1 => indentOfDepth d ++ "  "

mutual

/-- State-passing embedding of a `display` call: returns the component as it
stands after the call (every field re-read after the recursion) together
with the printed lines.  The method body assigns no field, which is what the
theorems below make explicit. -/
def displayRun : Component → String → Component × List String
  | .file i n, indentation => (.file i n, [indentation ++ "- File: " ++ n])
  | .folder i n cs, indentation =>
      let r := displayRunList cs (indentation ++ "  ")
      (.folder i n r.1, (indentation ++ "+ Folder: " ++ n) :: r.2)

/-- State-passing embedding of the `forEach` loop over the children. -/
def displayRunList : List Component → String → List Component × List String
  | [], _ => ([], [])
  | c :: cs, indentation =>
      let r1 := displayRun c indentation
      let r2 := displayRunList cs indentation
      (r1.1 :: r2.1, r1.2 ++ r2.2)

end

/- ===== The client code of the sample, with fresh ids for each `new` ===== -/

/-- Client code: `new File("file1.txt")`. -/
def file1 : Component := .file 1 "file1.txt"

/-- Client code: `new File("file2.txt")`. -/
def file2 : Component := .file 2 "file2.txt"

/-- Client code: `new File("file3.txt")`. -/
def file3 : Component := .file 3 "file3.txt"

/-- Client code: `new File("file4.txt")`. -/
def file4 : Component := .file 4 "file4.txt"

/-- Children of `folder1` after `folder1.add(file1); folder1.add(file2);
folder1.add(file4)`. -/
def folder1Children : List Component :=
  Folder.add (Folder.add (Folder.add [] file1) file2) file4

/-- Client code: `new Folder("Documents")` after the three adds. -/
def folder1 : Component := .folder 5 "Documents" folder1Children

/-- Children of `folder2` after `folder2.add(file3)`. -/
def folder2Children : List Component := Folder.add [] file3

/-- Client code: `new Folder("Images")` after its add. -/
def folder2 : Component := .folder 6 "Images" folder2Children

/-- Children of the root after `rootFolder.add(folder1); rootFolder.add(folder2)`. -/
def rootChildren : List Component := Folder.add (Folder.add [] folder1) folder2

/-- Client code: `new Folder("Root")` after its two adds. -/
def rootFolder : Component := .folder 7 "Root" rootChildren

/-- Children of `folder1` after `folder1.remove(file4)`. -/
def folder1ChildrenAfter : List Component := Folder.remove folder1Children file4

/-- The `folder1` object (same identity, id 5) after `folder1.remove(file4)`. -/
def folder1After : Component := .folder 5 "Documents" folder1ChildrenAfter

/-- The root object (same identity, id 7) after `folder1.remove(file4)`:
its children array still holds the same two folder objects, the first of
which now has one child fewer. -/
def rootFolderAfter : Component :=
  .folder 7 "Root" (Folder.add (Folder.add [] folder1After) folder2)

/-- Display output of the demo tree as claimed by the specification sentence
under scrutiny, with the file3 line indented by six spaces. -/
def claimedDemoOutput : List String :=
  ["+ Folder: Root", "  + Folder: Documents", "    - File: file1.txt",
   "    - File: file2.txt", "    - File: file4.txt", "  + Folder: Images",
   "      - File: file3.txt"]

/- ===== Helper lemmas ===== -/

theorem indexOfFrom_eq_neg_one (x : Component) (l : List Component) (n : Nat) :
    indexOfFrom x l n = -1 ↔ cid x ∉ l.map cid := by
  induction l generalizing n with
  | nil => simp [indexOfFrom]
  | cons c cs ih =>
      simp only [indexOfFrom, List.map_cons, List.mem_cons]
      by_cases h : cid c = cid x
      · rw [if_pos h]
        constructor
        · intro hn
          exact absurd hn (by omega)
        · intro hmem
          exact absurd (Or.inl h.symm) hmem
      · rw [if_neg h, ih (n + 1)]
        have hxc : ¬ cid x = cid c := fun e => h e.symm
        tauto

theorem indexOfFrom_ge (x : Component) (l : List Component) (n : Nat)
    (h : indexOfFrom x l n ≠ -1) : (n : Int) ≤ indexOfFrom x l n := by
  induction l generalizing n with
  | nil => simp [indexOfFrom] at h
  | cons c cs ih =>
      by_cases hc : cid c = cid x
      · simp [indexOfFrom, hc]
      · simp only [indexOfFrom, if_neg hc] at h ⊢
        have := ih (n + 1) h
        omega

theorem indexOfFrom_succ_shift (x : Component) (l : List Component) (n : Nat) :
    indexOfFrom x l (n + 1) =
      if indexOfFrom x l n = -1 then -1 else indexOfFrom x l n + 1 := by
  induction l generalizing n with
  | nil => simp [indexOfFrom]
  | cons c cs ih =>
      by_cases h : cid c = cid x
      · simp [indexOfFrom, h]
      · simp only [indexOfFrom, if_neg h]
        exact ih (n + 1)

/-- The indexOf-and-splice implementation of `Folder.remove` is exactly
"drop the first child with the argument's reference identity". -/
theorem remove_eq_removeFirst (cs : List Component) (x : Component) :
    Folder.remove cs x = removeFirst x cs := by
  induction cs with
  | nil => simp [Folder.remove, indexOf, indexOfFrom, removeFirst]
  | cons c cs ih =>
      by_cases h : cid c = cid x
      · simp [Folder.remove, indexOf, indexOfFrom, h, removeFirst]
      · simp only [Folder.remove, indexOf, indexOfFrom, if_neg h, removeFirst]
        rw [indexOfFrom_succ_shift]
        by_cases h2 : indexOfFrom x cs 0 = -1
        · rw [if_pos h2, if_neg (show ¬ ((-1 : Int) ≠ -1) from fun hh => hh rfl)]
          have hcs : removeFirst x cs = cs := by
            rw [← ih]
            simp [Folder.remove, indexOf, h2]
          rw [hcs]
        · have hge := indexOfFrom_ge x cs 0 h2
          rw [if_neg h2]
          have h3 : indexOfFrom x cs 0 + 1 ≠ -1 := by omega
          rw [if_pos h3]
          have h4 : (indexOfFrom x cs 0 + 1).toNat = (indexOfFrom x cs 0).toNat + 1 := by
            omega
          rw [h4, List.eraseIdx_cons_succ]
          have hih : Folder.remove cs x = cs.eraseIdx (indexOfFrom x cs 0).toNat := by
            simp [Folder.remove, indexOf, h2]
          rw [← ih, hih]

theorem removeFirst_not_mem (cs : List Component) (x : Component)
    (h : cid x ∉ cs.map cid) : removeFirst x cs = cs := by
  induction cs with
  | nil => simp [removeFirst]
  | cons c cs ih =>
      simp only [List.map_cons, List.mem_cons] at h
      push_neg at h
      rw [removeFirst, if_neg (Ne.symm h.1), ih h.2]

theorem removeFirst_append_first (pre post : List Component) (x y : Component)
    (hy : cid y = cid x) (hpre : cid x ∉ pre.map cid) :
    removeFirst x (pre ++ y :: post) = pre ++ post := by
  induction pre with
  | nil => simp [removeFirst, hy]
  | cons c cs ih =>
      simp only [List.map_cons, List.mem_cons] at hpre
      push_neg at hpre
      rw [List.cons_append, removeFirst, if_neg (Ne.symm hpre.1), ih hpre.2,
        List.cons_append]

mutual

theorem displayRun_fst (c : Component) (indentation : String) :
    (displayRun c indentation).1 = c := by
  cases c with
  | file i n => rfl
  | folder i n cs =>
      simp only [displayRun]
      rw [displayRunList_fst cs (indentation ++ "  ")]

theorem displayRunList_fst (cs : List Component) (indentation : String) :
    (displayRunList cs indentation).1 = cs := by
  cases cs with
  | nil => rfl
  | cons c cs =>
      simp only [displayRunList]
      rw [displayRun_fst c indentation, displayRunList_fst cs indentation]

end

mutual

theorem displayRun_snd (c : Component) (indentation : String) :
    (displayRun c indentation).2 = display c indentation := by
  cases c with
  | file i n => rfl
  | folder i n cs =>
      simp only [displayRun, display]
      rw [displayRunList_snd cs (indentation ++ "  ")]

theorem displayRunList_snd (cs : List Component) (indentation : String) :
    (displayRunList cs indentation).2 = displayList cs indentation := by
  cases cs with
  | nil => rfl
  | cons c cs =>
      simp only [displayRunList, displayList]
      rw [displayRun_snd c indentation, displayRunList_snd cs indentation]

end

mutual

theorem display_length_size (c : Component) (indentation : String) :
    (display c indentation).length = size c := by
  cases c with
  | file i n => simp [display, size]
  | folder i n cs =>
      simp only [display, size, List.length_cons]
      rw [displayList_length_size cs (indentation ++ "  ")]
      omega

theorem displayList_length_size (cs : List Component) (indentation : String) :
    (displayList cs indentation).length = sizeList cs := by
  cases cs with
  | nil => simp [displayList, sizeList]
  | cons c cs =>
      simp only [displayList, sizeList, List.length_append]
      rw [display_length_size c indentation, displayList_length_size cs indentation]

end

mutual

theorem display_eq_preorder (c : Component) (ind : String) (d : Nat) :
    display c (ind ++ indentOfDepth d) =
      (preorder c d).map (fun p => ind ++ indentOfDepth p.1 ++ lineOf p.2) := by
  cases c with
  | file i n => simp [display, preorder, lineOf, String.append_assoc]
  | folder i n cs =>
      simp only [display, preorder, List.map_cons]
      rw [show ind ++ indentOfDepth d ++ "  " = ind ++ indentOfDepth (d + 1) by
        simp [indentOfDepth, String.append_assoc]]
      rw [displayList_eq_preorder cs ind (d + 1)]
      congr 1
      simp [lineOf, String.append_assoc]

theorem displayList_eq_preorder (cs : List Component) (ind : String) (d : Nat) :
    displayList cs (ind ++ indentOfDepth d) =
      (preorderList cs d).map (fun p => ind ++ indentOfDepth p.1 ++ lineOf p.2) := by
  cases cs with
  | nil => simp [displayList, preorderList]
  | cons c cs =>
      simp only [displayList, preorderList, List.map_append]
      rw [display_eq_preorder c ind d, displayList_eq_preorder cs ind d]

end

/- ===== Claim theorems ===== -/

/-- C1: a Folder's display emits exactly one header line
`<indentation>+ Folder: <name>` and then displays each child in sequence
order with indentation extended by two spaces; consequently the whole output
is the pre-order traversal of the tree, one line per node (every node
exactly once, parent before children, children in insertion order), with
indentation growing by exactly two spaces per depth level. -/
theorem folder_display_preorder_traversal :
    (∀ (i : Nat) (n : String) (cs : List Component) (ind : String),
        display (Component.folder i n cs) ind
          = (ind ++ "+ Folder: " ++ n) :: displayList cs (ind ++ "  "))
    ∧ (∀ (c : Component) (ind : String),
        display c ind
          = (preorder c 0).map (fun p => ind ++ indentOfDepth p.1 ++ lineOf p.2))
    ∧ (∀ (c : Component) (ind : String), (display c ind).length = size c) := by
  refine ⟨fun i n cs ind => rfl, fun c ind => ?_, fun c ind => display_length_size c ind⟩
  have h := display_eq_preorder c ind 0
  simpa [indentOfDepth] using h

/-- C2: Folder.remove removes the first occurrence of the argument, compared
by reference identity, from the child sequence; when no child has the
argument's identity, the call is a silent no-op: the child sequence and any
subsequent display output are unchanged. -/
theorem remove_first_occurrence_or_noop :
    (∀ (pre post : List Component) (x y : Component),
        cid y = cid x → cid x ∉ pre.map cid →
        Folder.remove (pre ++ y :: post) x = pre ++ post)
    ∧ (∀ (cs : List Component) (x : Component),
        cid x ∉ cs.map cid →
        Folder.remove cs x = cs
        ∧ ∀ (i : Nat) (n ind : String),
            display (Component.folder i n (Folder.remove cs x)) ind
              = display (Component.folder i n cs) ind) := by
  constructor
  · intro pre post x y hy hpre
    rw [remove_eq_removeFirst, removeFirst_append_first pre post x y hy hpre]
  · intro cs x h
    have hr : Folder.remove cs x = cs := by
      rw [remove_eq_removeFirst, removeFirst_not_mem cs x h]
    exact ⟨hr, fun i n ind => by rw [hr]⟩

/-- Witness for C2 at concrete inputs: removing file4 from
[file1, file4, file2] drops exactly the first identity match, and removing
the never-added file3 from [file1, file2] changes neither the children nor
the display output. -/
theorem remove_first_occurrence_or_noop_witness :
    Folder.remove [file1, file4, file2] file4 = [file1, file2]
    ∧ Folder.remove [file1, file2] file3 = [file1, file2]
    ∧ display (Component.folder 9 "D" (Folder.remove [file1, file2] file3)) ""
        = display (Component.folder 9 "D" [file1, file2]) "" := by
  refine ⟨?_, ?_, ?_⟩
  · exact remove_first_occurrence_or_noop.1 [file1] [file2] file4 file4 rfl (by decide)
  · exact (remove_first_occurrence_or_noop.2 [file1, file2] file3 (by decide)).1
  · exact (remove_first_occurrence_or_noop.2 [file1, file2] file3 (by decide)).2 9 "D" ""

/-- C3: adding a component whose identity is not already among the children
and then immediately removing it restores the child sequence exactly. -/
theorem add_then_remove_roundtrip (S : List Component) (x : Component)
    (h : cid x ∉ S.map cid) :
    Folder.remove (Folder.add S x) x = S := by
  simp only [Folder.add]
  rw [remove_eq_removeFirst]
  have hx := removeFirst_append_first S [] x x rfl h
  simpa using hx

/-- Witness for C3: adding file4 to [file1, file2] and removing it again
restores [file1, file2]. -/
theorem add_then_remove_roundtrip_witness :
    cid file4 ∉ [file1, file2].map cid
    ∧ Folder.remove (Folder.add [file1, file2] file4) file4 = [file1, file2] :=
  ⟨by decide, add_then_remove_roundtrip [file1, file2] file4 (by decide)⟩

/-- C4 counterexample: the demo display output is NOT the seven lines of the
claim, whose last line `      - File: file3.txt` carries six spaces of
indentation; the code indents file3.txt by four spaces (depth two at two
spaces per level). -/
theorem demo_display_ne_claimed : display rootFolder "" ≠ claimedDemoOutput := by
  decide

/-- C4 (amended): displaying the demo tree from the root produces exactly
these seven lines, the last one being the four-space indented
`    - File: file3.txt`. -/
theorem demo_display_exact :
    display rootFolder "" =
      ["+ Folder: Root", "  + Folder: Documents", "    - File: file1.txt",
       "    - File: file2.txt", "    - File: file4.txt", "  + Folder: Images",
       "    - File: file3.txt"] := rfl

/-- C5: after `folder1.remove(file4)` the root display output is exactly the
previous output with the single `    - File: file4.txt` line erased; that
line occurred exactly once, and every other line keeps its content, order
and indentation. -/
theorem demo_display_after_remove :
    display rootFolderAfter ""
      = (display rootFolder "").erase "    - File: file4.txt"
    ∧ (display rootFolder "").count "    - File: file4.txt" = 1 := by
  constructor
  · decide
  · decide

/-- C6: a File's display emits exactly one line,
`<indentation>- File: <name>`, and nothing else. -/
theorem file_display_single_line (i : Nat) (n indentation : String) :
    display (Component.file i n) indentation
      = [indentation ++ "- File: " ++ n] := rfl

/-- C7: Folder.add appends at the end of the child sequence; hence children
added in the order a, b, c are displayed in exactly that order, whatever
their kinds. -/
theorem add_appends_and_preserves_order :
    (∀ (cs : List Component) (x : Component), Folder.add cs x = cs ++ [x])
    ∧ (∀ (a b c : Component) (ind : String),
        displayList (Folder.add (Folder.add (Folder.add [] a) b) c) ind
          = display a ind ++ display b ind ++ display c ind) := by
  refine ⟨fun cs x => rfl, fun a b c ind => ?_⟩
  simp [Folder.add, displayList, List.append_assoc]

/-- C8: a newly constructed Folder has no children, and a Folder with zero
children displays only its own header line; the loop over an empty child
sequence performs zero recursive display calls. -/
theorem empty_folder_single_line :
    (∀ (i : Nat) (n : String), childrenOf (Folder.new i n) = [])
    ∧ (∀ (i : Nat) (n ind : String),
        display (Component.folder i n []) ind = [ind ++ "+ Folder: " ++ n])
    ∧ (∀ ind : String, displayList [] ind = []) :=
  ⟨fun _ _ => rfl, fun _ _ _ => rfl, fun _ => rfl⟩

/-- C9: display is output-only and deterministic: running display leaves the
component exactly as it was, the lines it prints are those of the pure
display function, and a second run on the component resulting from the first
prints the identical line sequence. -/
theorem display_output_only_deterministic :
    ∀ (c : Component) (ind : String),
      (displayRun c ind).1 = c
      ∧ (displayRun c ind).2 = display c ind
      ∧ (displayRun (displayRun c ind).1 ind).2 = (displayRun c ind).2 := by
  intro c ind
  refine ⟨displayRun_fst c ind, displayRun_snd c ind, ?_⟩
  rw [displayRun_fst c ind]

/-- C10: the indentation parameter defaults to the empty string: for every
component, display with no argument equals display with the explicit empty
string, so a root-level display starts at zero indentation. -/
theorem display_default_empty_indentation :
    ∀ c : Component, displayOpt c none = displayOpt c (some "")
      ∧ displayOpt c none = display c "" :=
  fun _ => ⟨rfl, rfl⟩

end Composite
